import Mathlib

/-!
Verification of the flamego/binding form-binding middleware.

Shallow embedding of `binding.go` and `errors.go`:
the scalar type-coercion routine `setWithProperType`, the recursive
form mapper `mapForm`, the error accumulator, and the four binding
entry points (JSON / YAML / Form / MultipartForm).

Modelling conventions:
- Go `reflect.Kind` is the enumeration `Kind`; Go types that `mapForm`
  traverses are the tree `Ty`; runtime values are the tree `Val`.
- Machine integers are `Int` / `Nat` with explicit truncation modulo
  `2 ^ w` where `reflect.Value.SetInt` / `SetUint` truncate.
- Go runtime panics (out-of-range slice indexing, `NumField` on a
  non-struct) are modelled by returning `none` from `Option`.
- External collaborators (the JSON/YAML decoders, the validator, the
  multipart parser) are parameters of the per-request step functions,
  mirroring the narrow contracts of spec section 6.
-/

namespace Binding

/-- The subset of `reflect.Kind` relevant to `setWithProperType` and
`mapForm`: the supported scalar kinds plus the composite / unsupported
kinds that reach the type-switch `default` arm. -/
inductive Kind where
  | int | int8 | int16 | int32 | int64
  | uint | uint8 | uint16 | uint32 | uint64
  | bool | float32 | float64 | string
  | uintptr | complex64 | complex128
  | array | chan | func | interface | map | ptr | slice | struct_
deriving DecidableEq, Repr

/-- The signed-integer case list of the `switch` in `setWithProperType`
(`reflect.Int` through `reflect.Int64`). -/
def Kind.isSigned : Kind → Bool
  | .int | .int8 | .int16 | .int32 | .int64 => true
  | _ => false

/-- The unsigned-integer case list (`reflect.Uint` through
`reflect.Uint64`; `reflect.Uintptr` is not in the list). -/
def Kind.isUnsigned : Kind → Bool
  | .uint | .uint8 | .uint16 | .uint32 | .uint64 => true
  | _ => false

/-- Bit width of each integer kind; `int` and `uint` are 64-bit on the
platforms the library targets. -/
def Kind.width : Kind → Nat
  | .int8 | .uint8 => 8
  | .int16 | .uint16 => 16
  | .int32 | .uint32 => 32
  | _ => 64

/-- `errors.go`: `type ErrorCategory string` with the two constants
`"deserialization"` and `"validation"`. -/
inductive ErrorCategory where
  | deserialization
  | validation
deriving DecidableEq, Repr

/-- `errors.go`: `Error` pairs a category with an underlying error,
modelled by its message string. -/
structure Error where
  category : ErrorCategory
  err : String
deriving DecidableEq, Repr

/-- `errors.go`: `type Errors []Error`. -/
def Errors := List Binding.Error

/-- `errors.go`: `Add` appends one classified error. -/
def Errors.add (errs : Errors) (category : ErrorCategory) (err : String) : Errors :=
  List.append errs [⟨category, err⟩]

/-- `errors.go`: `Len` returns the number of errors. -/
def Errors.len (errs : Errors) : Nat :=
  List.length errs

/-! ### Models of the strconv parsers used by `setWithProperType` -/

def isDigit (c : Char) : Bool := '0' ≤ c && c ≤ '9'

/-- Base-10 digit-string value: `none` on an empty string or any
non-digit character (strconv's ErrSyntax). -/
def digitsVal (cs : List Char) : Option Nat :=
  match cs with
  | [] => none
  | _ =>
    if cs.all isDigit then
      some (cs.foldl (fun a c => a * 10 + (c.toNat - 48)) 0)
    else none

/-- Model of `strconv.ParseUint(s, 10, 64)`: digits only (no sign
permitted), value at most `2 ^ 64 - 1`; otherwise ErrSyntax/ErrRange. -/
def parseUint64 (s : String) : Option Nat :=
  match digitsVal s.data with
  | none => none
  | some n => if n ≤ 2 ^ 64 - 1 then some n else none

/-- Model of `strconv.ParseInt(s, 10, 64)`: optional single sign, then
digits; the value must lie in `[-2 ^ 63, 2 ^ 63 - 1]`, otherwise
ErrRange. -/
def parseInt64 (s : String) : Option Int :=
  match s.data with
  | [] => none
  | c :: rest =>
    let neg := c == '-'
    let ds := if c == '-' || c == '+' then rest else s.data
    match digitsVal ds with
    | none => none
    | some un =>
      if neg then
        if un ≤ 2 ^ 63 then some (-(un : Int)) else none
      else
        if un < 2 ^ 63 then some (un : Int) else none

/-- Model of `strconv.ParseBool`: the exact accepted token set. -/
def parseGoBool (s : String) : Option Bool :=
  if s == "1" || s == "t" || s == "T" || s == "TRUE" || s == "true" || s == "True" then
    some true
  else if s == "0" || s == "f" || s == "F" || s == "FALSE" || s == "false" || s == "False" then
    some false
  else none

/-- Rational power of ten with an integer exponent (used by the
decimal-float model). -/
def pow10 (e : Int) : ℚ :=
  if 0 ≤ e then ((10 : ℚ) ^ e.toNat) else 1 / ((10 : ℚ) ^ (-e).toNat)

/-- Split a character list at the first character satisfying `p`;
the second component is `none` when no such character occurs. -/
def splitFirst (p : Char → Bool) : List Char → List Char × Option (List Char)
  | [] => ([], none)
  | c :: rest =>
    if p c then ([], some rest)
    else
      let (a, b) := splitFirst p rest
      (c :: a, b)

/-- Model of `strconv.ParseFloat` restricted to finite decimal
literals (optional sign, digits with at most one dot and at least one
digit, optional decimal exponent), evaluated exactly in `ℚ`.
Infinities, NaN, hexadecimal floats and binary rounding/range behavior
are outside the fragment the claims exercise. -/
def parseGoFloat (s : String) : Option ℚ :=
  match s.data with
  | [] => none
  | c :: rest =>
    let neg := c == '-'
    let body := if c == '-' || c == '+' then rest else s.data
    let (mant, expPart) := splitFirst (fun ch => ch == 'e' || ch == 'E') body
    let (ip, fpOpt) := splitFirst (fun ch => ch == '.') mant
    let fp := fpOpt.getD []
    if (ip ++ fp).isEmpty then none
    else if !(ip ++ fp).all isDigit then none
    else
      let m : ℚ := ((ip ++ fp).foldl (fun a ch => a * 10 + (ch.toNat - 48)) 0 : Nat)
      let base : ℚ := m / ((10 : ℚ) ^ fp.length)
      let signed : ℚ := if neg then -base else base
      match expPart with
      | none => some signed
      | some ecs =>
        match ecs with
        | [] => none
        | e0 :: erest =>
          let eneg := e0 == '-'
          let eds := if e0 == '-' || e0 == '+' then erest else ecs
          match digitsVal eds with
          | none => none
          | some en =>
            let ev : Int := if eneg then -(en : Int) else (en : Int)
            some (signed * pow10 ev)

/-- Two's-complement truncation of `reflect.Value.SetInt` to a `w`-bit
signed field. -/
def truncInt (w : Nat) (x : Int) : Int :=
  let m := x % ((2 ^ w : Nat) : Int)
  if m < ((2 ^ (w - 1) : Nat) : Int) then m else m - ((2 ^ w : Nat) : Int)

/-- Truncation of `reflect.Value.SetUint` to a `w`-bit unsigned field. -/
def truncUint (w : Nat) (x : Nat) : Nat := x % 2 ^ w

/-- Model of Go's `%q` verb for the strings that appear in field names
and form tokens: the string wrapped in double quotes, with quotes and
backslashes escaped (non-printable escapes are outside the modelled
fragment). -/
def goQuoteChar (c : Char) : String :=
  if c == '"' then "\\\"" else if c == '\\' then "\\\\" else String.singleton c

def goQuote (s : String) : String :=
  "\"" ++ String.join (s.data.map goQuoteChar) ++ "\""

/-- The message of `fmt.Errorf("field %q cannot parse %q as <kind>", name, val)`. -/
def errMsg (name val kindWord : String) : String :=
  "field " ++ goQuote name ++ " cannot parse " ++ goQuote val ++ " as " ++ kindWord

/-! ### The model-shape and runtime-value trees traversed by `mapForm` -/

/-- The Go types `mapForm` can encounter.  A struct field is the tuple
`(Name, form tag, CanSet, Anonymous, type)`; the form tag is `""` when
absent.  `fileHeader` is the distinguished `*multipart.FileHeader`
type (its reflect kind is `ptr`). -/
inductive Ty where
  | prim (k : Kind)
  | struct_ (fs : List (String × String × Bool × Bool × Ty))
  | ptr (t : Ty)
  | slice (t : Ty)
  | fileHeader

/-- One struct-field descriptor: name, form tag, CanSet, Anonymous, type. -/
abbrev FieldT := String × String × Bool × Bool × Ty

/-- `reflect.Type.Kind` on the modelled types. -/
def kindOf : Ty → Kind
  | .prim k => k
  | .struct_ _ => .struct_
  | .ptr _ => .ptr
  | .slice _ => .slice
  | .fileHeader => .ptr

/-- Runtime values.  `vPtr none` is a nil pointer, `vSlice []` is the
nil (or empty) slice, `vFile none` a nil `*multipart.FileHeader` and
`vFile (some id)` an uploaded-file handle.  `vPrim` is the opaque zero
value of a kind `setWithProperType` does not support. -/
inductive Val where
  | vInt (n : Int)
  | vUint (n : Nat)
  | vBool (b : Bool)
  | vFloat (q : ℚ)
  | vString (s : String)
  | vPrim
  | vStruct (fields : List Val)
  | vPtr (v : Option Val)
  | vSlice (xs : List Val)
  | vFile (id : Option Nat)

/-- Zero value of a primitive kind. -/
def zeroPrim (k : Kind) : Val :=
  if k.isSigned then .vInt 0
  else if k.isUnsigned then .vUint 0
  else if k == .bool then .vBool false
  else if k == .float32 || k == .float64 then .vFloat 0
  else if k == .string then .vString ""
  else .vPrim

mutual

/-- `reflect.Zero(t)`: the zero value of a type. -/
def zeroVal : Ty → Val
  | .prim k => zeroPrim k
  | .struct_ fs => .vStruct (zeroFields fs)
  | .ptr _ => .vPtr none
  | .slice _ => .vSlice []
  | .fileHeader => .vFile none

def zeroFields : List FieldT → List Val
  | [] => []
  | (_, _, _, _, t) :: fs => zeroVal t :: zeroFields fs

end

mutual

/-- `reflect.DeepEqual` on the modelled values.  It is only ever
invoked on two values of the same type (a freshly mapped struct and
the zero value of its type), so type tags need not be compared.  The
nil slice and the empty slice are identified; `mapForm` only ever
assigns non-empty slices, so the distinction is unobservable here. -/
def deepEqual : Val → Val → Bool
  | .vInt n, .vInt m => n == m
  | .vUint n, .vUint m => n == m
  | .vBool a, .vBool b => a == b
  | .vFloat p, .vFloat q => p == q
  | .vString s, .vString t => s == t
  | .vPrim, .vPrim => true
  | .vStruct xs, .vStruct ys => deepEqualList xs ys
  | .vPtr none, .vPtr none => true
  | .vPtr (some x), .vPtr (some y) => deepEqual x y
  | .vSlice xs, .vSlice ys => deepEqualList xs ys
  | .vFile a, .vFile b => a == b
  | _, _ => false

def deepEqualList : List Val → List Val → Bool
  | [], [] => true
  | x :: xs, y :: ys => deepEqual x y && deepEqualList xs ys
  | _, _ => false

end

/-! ### The type-coercion routine -/

/-- `setWithProperType`: dispatches on the target kind and either
writes the coerced token into the field or reports one classified
error.  The returned `Val` is the field after the call (Go mutates the
field in place); the call sites always pass the field's own kind, so
`SetInt`/`SetUint` truncation uses `kind.width`. -/
def setWithProperType (kind : Kind) (val : String) (field : Val) (name : String) :
    Val × Option Binding.Error :=
  if kind.isSigned then
    let v := if val == "" then "0" else val
    match parseInt64 v with
    | none => (field, some ⟨.deserialization, errMsg name v "int"⟩)
    | some parsed => (.vInt (truncInt kind.width parsed), none)
  else if kind.isUnsigned then
    let v := if val == "" then "0" else val
    match parseUint64 v with
    | none => (field, some ⟨.deserialization, errMsg name v "uint"⟩)
    | some parsed => (.vUint (truncUint kind.width parsed), none)
  else if kind == .bool then
    if val == "on" then (.vBool true, none)
    else
      let v := if val == "" then "false" else val
      match parseGoBool v with
      | none => (field, some ⟨.deserialization, errMsg name v "bool"⟩)
      | some parsed => (.vBool parsed, none)
  else if kind == .float32 then
    let v := if val == "" then "0.0" else val
    match parseGoFloat v with
    | none => (field, some ⟨.deserialization, errMsg name v "float32"⟩)
    | some parsed => (.vFloat parsed, none)
  else if kind == .float64 then
    let v := if val == "" then "0.0" else val
    match parseGoFloat v with
    | none => (field, some ⟨.deserialization, errMsg name v "float64"⟩)
    | some parsed => (.vFloat parsed, none)
  else if kind == .string then
    (.vString val, none)
  else
    (field, none)

/-! ### The form mapper -/

/-- `url.Values`: external key to ordered string values. -/
abbrev Form := List (String × List String)

/-- The multipart file map: external key to ordered file handles. -/
abbrev Files := List (String × List Nat)

/-- Go map indexing `m[k]` on an association list. -/
def lookupKey {α : Type} : List (String × α) → String → Option α
  | [], _ => none
  | (k', v) :: rest, k => if k' == k then some v else lookupKey rest k

/-- The loop body of the slice branch of `mapForm`: a fresh slice of
zero-valued elements, each position set independently with
`setWithProperType`, errors collected in position order. -/
def coerceSlice (k : Kind) (et : Ty) (fieldName : String) :
    List String → List Val × List Binding.Error
  | [] => ([], [])
  | s :: rest =>
    let p := setWithProperType k s (zeroVal et) fieldName
    let q := coerceSlice k et fieldName rest
    (p.1 :: q.1, p.2.toList ++ q.2)

/-- The key-lookup half of one `mapForm` field iteration, after the
nested-shape recursion: look the field's external key up in the plain
mapping (slice fields with a positive number of matches get a fresh
coerced slice, every other match coerces the first value into the
field) and, only when the key is absent there, in the file mapping.
`none` models the panic of indexing `inputValue[0]` / `inputFile[0]`
on an empty match list. -/
def mapFieldKey (fty : Ty) (fieldName : String) (v1 : Val) (form : Form)
    (files : Files) (errs1 : List Binding.Error) :
    Option (Val × List Binding.Error) :=
  match lookupKey form fieldName with
  | some inputValue =>
    match fty with
    | .slice et =>
      match inputValue with
      | [] => none
      | _ =>
        let p := coerceSlice (kindOf et) et fieldName inputValue
        some (.vSlice p.1, errs1 ++ p.2)
    | _ =>
      match inputValue with
      | [] => none
      | s :: _ =>
        let p := setWithProperType (kindOf fty) s v1 fieldName
        some (p.1, errs1 ++ p.2.toList)
  | none =>
    match lookupKey files fieldName with
    | none => some (v1, errs1)
    | some inputFile =>
      match fty, inputFile with
      | .slice .fileHeader, _ :: _ =>
        some (.vSlice (inputFile.map (fun fid => Val.vFile (some fid))), errs1)
      | .fileHeader, f0 :: _ => some (.vFile (some f0), errs1)
      | .fileHeader, [] => none
      | _, _ => some (v1, errs1)

mutual

/-- `mapForm`: dereference a pointer receiver, then walk the struct's
fields.  `none` models the Go panics (`NumField` on a non-struct,
indexing `inputValue[0]` / `inputFile[0]` on an empty match list). -/
def mapForm (t : Ty) (obj : Val) (form : Form) (files : Files)
    (errs : List Binding.Error) : Option (Val × List Binding.Error) :=
  match t, obj with
  | .ptr (.struct_ fs), .vPtr (some (.vStruct vs)) =>
    match mapFields fs vs form files errs with
    | none => none
    | some (vs', errs') => some (.vPtr (some (.vStruct vs')), errs')
  | .struct_ fs, .vStruct vs =>
    match mapFields fs vs form files errs with
    | none => none
    | some (vs', errs') => some (.vStruct vs', errs')
  | _, _ => none

/-- The field loop of `mapForm`, in declaration order. -/
def mapFields (fs : List FieldT) (vs : List Val) (form : Form) (files : Files)
    (errs : List Binding.Error) : Option (List Val × List Binding.Error) :=
  match fs, vs with
  | [], [] => some ([], errs)
  | f :: fs', v :: vs' =>
    match mapField f v form files errs with
    | none => none
    | some (v', errs') =>
      match mapFields fs' vs' form files errs' with
      | none => none
      | some (vs'', errs'') => some (v' :: vs'', errs'')
  | _, _ => none

/-- One iteration of the field loop of `mapForm`.

Mirrors the source: skip unwritable fields; for an anonymous pointer
field allocate a fresh pointee, recurse into it and discard the
allocation when the result deep-equals the zero value; for a struct
field recurse in place; then look the field's external key up in the
plain mapping (slice fields with a positive number of matches get a
fresh coerced slice, every other match coerces the first value only)
and, only when the key is absent there, in the file mapping.

An anonymous `*multipart.FileHeader` field (which Go would also treat
as an anonymous pointer) is outside the modelled fragment and falls
through to the ordinary lookup path. -/
def mapField (f : FieldT) (v : Val) (form : Form) (files : Files)
    (errs : List Binding.Error) : Option (Val × List Binding.Error) :=
  match f with
  | (nm, tagv, canSet, anon, fty) =>
    if !canSet then some (v, errs)
    else
      let step1 : Option (Val × List Binding.Error) :=
        match fty, anon with
        | .ptr t', true =>
          match mapForm t' (zeroVal t') form files errs with
          | none => none
          | some (inner, errs') =>
            if deepEqual inner (zeroVal t') then some (.vPtr none, errs')
            else some (.vPtr (some inner), errs')
        | .struct_ gs, _ =>
          match mapForm (.struct_ gs) v form files errs with
          | none => none
          | some (v', errs') => some (v', errs')
        | _, _ => some (v, errs)
      match step1 with
      | none => none
      | some (v1, errs1) =>
        mapFieldKey fty (if tagv == "" then nm else tagv) v1 form files errs1

end

/-! ### Binding entry points

Each Go entry point is a factory: it first checks the model at
registration time (`ensureNotPointer` panics on a pointer-typed
model, modelled by `Except.error`) and resolves the configuration,
then serves requests.  The per-request behavior is a separate step
function parameterised by the external collaborators: the body
decoder, the multipart parser and the validator result (the error
`validate.VarCtx` returns, `none` on success).

`reflect.New(model)` followed by `obj.Elem()` is collapsed: the step
functions pass the fresh zero-valued instance to `mapForm` directly
(the pointer `mapForm` receives in Go is dereferenced on entry) and
expose the mapped instance. -/

/-- `Options`: only the multipart memory ceiling is algorithmically
relevant; the error handler and validator are collaborators modelled
as parameters of the step functions. -/
structure Options where
  maxMemory : Int
deriving DecidableEq, Repr

/-- `parseOptions`: a non-positive ceiling defaults to 10 MiB
(`10 * 1 << 20`). -/
def parseOptions (opts : Options) : Options :=
  if opts.maxMemory ≤ 0 then ⟨10 * 1048576⟩ else opts

/-- `ensureNotPointer` panics when the model value is a pointer. -/
def ensureNotPointer (t : Ty) : Except String Unit :=
  if kindOf t == .ptr then
    .error "binding: pointer can not be accepted as binding model"
  else .ok ()

/-- `validateAndMap`: run the validator and append at most one
validation-category error wrapping its aggregate error, then expose
instance and errors (exposure is the step functions' return value). -/
def validateAndMap (valRes : Option String) (errs : List Binding.Error) :
    List Binding.Error :=
  match valRes with
  | some e => errs ++ [⟨.validation, e⟩]
  | none => errs

/-- Registration-time half of `binding.JSON`. -/
def JSON (model : Ty) (opts : Options) : Except String Options :=
  match ensureNotPointer model with
  | .error e => .error e
  | .ok _ => .ok (parseOptions opts)

/-- Registration-time half of `binding.YAML`. -/
def YAML (model : Ty) (opts : Options) : Except String Options :=
  match ensureNotPointer model with
  | .error e => .error e
  | .ok _ => .ok (parseOptions opts)

/-- Registration-time half of `binding.Form`. -/
def Form' (model : Ty) (opts : Options) : Except String Options :=
  match ensureNotPointer model with
  | .error e => .error e
  | .ok _ => .ok (parseOptions opts)

/-- Registration-time half of `binding.MultipartForm`. -/
def MultipartForm (model : Ty) (opts : Options) : Except String Options :=
  match ensureNotPointer model with
  | .error e => .error e
  | .ok _ => .ok (parseOptions opts)

/-- Per-request body of the `binding.JSON` handler.  `decode` is the
external `json.Decoder.Decode` acting on the fresh instance, returning
the instance it leaves behind and an optional error; when the request
has no body the decoder is not invoked. -/
def jsonStep (t : Ty) (hasBody : Bool) (decode : Val → Val × Option String)
    (valRes : Option String) : Val × List Binding.Error :=
  let d := if hasBody then decode (zeroVal t) else (zeroVal t, none)
  let errs : List Binding.Error :=
    match d.2 with
    | some e => [⟨.deserialization, e⟩]
    | none => []
  (d.1, validateAndMap valRes errs)

/-- Per-request body of the `binding.Form` handler.  `perr` is the
error of `r.ParseForm()` (`none` on success) and `form` the resulting
`r.Form`; files are never consulted (`mapForm` receives a nil map). -/
def formStep (t : Ty) (perr : Option String) (form : Form)
    (valRes : Option String) : Option (Val × List Binding.Error) :=
  let errs0 : List Binding.Error :=
    match perr with
    | some e => [⟨.deserialization, e⟩]
    | none => []
  match mapForm t (zeroVal t) form [] errs0 with
  | none => none
  | some (out, errs1) => some (out, validateAndMap valRes errs1)

/-- The parsed multipart data carried on the request
(`r.MultipartForm`): the plain-value map and the file map. -/
abbrev MultipartData := Form × Files

/-- Per-request body of the `binding.MultipartForm` handler.

`latch` is `r.MultipartForm` on entry (`some` when a previous pass
already parsed the body).  `parse` is the external
`MultipartReader().ReadForm(maxMemory)` composite, invoked with the
configured ceiling, for a request whose reader stage succeeds (a
genuine multipart request).  On a read failure the handler appends one
deserialization error and assigns `r.MultipartForm = form` with the
nil form `ReadForm` returns, so the latch is unset afterwards and
mapping is skipped.  (A reader-stage failure — a non-multipart
request — leaves on the request whatever sentinel
`net/http.Request.MultipartReader` stored, an internal of that
package, and is outside the modelled fragment.)

Returns `(latch after the pass, exposed instance, exposed errors,
ceiling the parser was invoked with — none when parsing was
skipped)`. -/
def multipartStep (t : Ty) (opts : Options) (latch : Option MultipartData)
    (parse : Int → Except String MultipartData) (valRes : Option String) :
    Option (Option MultipartData × Val × List Binding.Error × Option Int) :=
  let opt := parseOptions opts
  match latch with
  | some d =>
    match mapForm t (zeroVal t) d.1 d.2 [] with
    | none => none
    | some (out, errs) => some (some d, out, validateAndMap valRes errs, none)
  | none =>
    match parse opt.maxMemory with
    | .error e =>
      some (none, zeroVal t, validateAndMap valRes [⟨.deserialization, e⟩],
        some opt.maxMemory)
    | .ok d =>
      match mapForm t (zeroVal t) d.1 d.2 [] with
      | none => none
      | some (out, errs) => some (some d, out, validateAndMap valRes errs,
          some opt.maxMemory)

/-! ### Shape predicates used by the general theorems -/

/-- Keys of a source mapping. -/
def keysOf {α : Type} (m : List (String × α)) : List String :=
  m.map (fun p => p.1)

/-- The Source Mapping invariant of spec section 3: every present key
carries at least one value. -/
def sourceOK {α : Type} (m : List (String × List α)) : Bool :=
  m.all (fun p => !p.2.isEmpty)

mutual

/-- The shapes `mapForm` can traverse without a reflect panic: a
struct whose writable anonymous pointer fields point to such shapes
and whose writable plain struct fields are such shapes.  Anonymous
`*multipart.FileHeader` fields are excluded (see `mapField`). -/
def mappable : Ty → Bool
  | .struct_ fs => mappableFields fs
  | _ => false

def mappableFields : List FieldT → Bool
  | [] => true
  | (_, _, canSet, anon, fty) :: fs =>
    (if canSet then
      match fty, anon with
      | .ptr t', true => mappable t'
      | .fileHeader, true => false
      | .struct_ gs, _ => mappable (.struct_ gs)
      | _, _ => true
    else true) && mappableFields fs

end

mutual

/-- Every external key name a shape can match: each field's resolved
key (tag or name) together with the keys of its nested record shapes
(pointer targets included, as an over-approximation for fields the
mapper does not recurse into). -/
def tyNames : Ty → List String
  | .struct_ fs => fieldsNames fs
  | .ptr t => tyNames t
  | _ => []

def fieldsNames : List FieldT → List String
  | [] => []
  | (nm, tagv, _, _, fty) :: fs =>
    (if tagv == "" then nm else tagv) :: (tyNames fty ++ fieldsNames fs)

end

/-- The scalar kinds the type-coercion switch has a case for; every
other kind reaches the `default` arm and is untouched. -/
def Kind.isSupported (k : Kind) : Bool :=
  k.isSigned || k.isUnsigned || k == .bool || k == .float32 || k == .float64 ||
    k == .string

/-- Fields for which `mapForm` performs a nested-shape recursion before
the key lookup: anonymous pointer fields (allocate-recurse-discard)
and struct fields (recurse in place). -/
def stepsIntoNested : Ty → Bool → Bool
  | .ptr _, true => true
  | .fileHeader, true => true
  | .struct_ _, _ => true
  | _, _ => false

/-! ### Basic lemmas -/

theorem lookupKey_eq_none {α : Type} {m : List (String × α)} {k : String}
    (h : ¬ k ∈ keysOf m) : lookupKey m k = none := by
  induction m with
  | nil => rfl
  | cons p rest ih =>
    obtain ⟨k', v⟩ := p
    simp only [keysOf, List.map_cons, List.mem_cons] at h
    push_neg at h
    have hk : (k' == k) = false := by
      simp only [beq_eq_false_iff_ne]
      exact fun hkk => h.1 (hkk.symm)
    simp only [lookupKey, hk, Bool.false_eq_true, if_false]
    exact ih (by simpa [keysOf] using h.2)

theorem sourceOK_lookup {α : Type} {m : List (String × List α)} {k : String}
    {vs : List α} (hm : sourceOK m = true) (h : lookupKey m k = some vs) :
    vs ≠ [] := by
  induction m with
  | nil => simp [lookupKey] at h
  | cons p rest ih =>
    obtain ⟨k', v⟩ := p
    simp only [sourceOK, List.all_cons, Bool.and_eq_true] at hm
    simp only [lookupKey] at h
    by_cases hk : (k' == k) = true
    · simp only [hk, if_true, Option.some.injEq] at h
      subst h
      simpa [List.isEmpty_iff] using hm.1
    · simp only [hk, if_false] at h
      exact ih (by simpa [sourceOK] using hm.2) h

theorem setWithProperType_cat {kind : Kind} {val : String} {field : Val}
    {name : String} {v : Val} {e : Binding.Error}
    (h : setWithProperType kind val field name = (v, some e)) :
    e.category = .deserialization := by
  unfold setWithProperType at h
  by_cases h1 : kind.isSigned = true
  · simp only [h1, if_true] at h
    cases hp : parseInt64 (if val == "" then "0" else val)
    · rw [hp] at h
      simp only [Prod.mk.injEq, Option.some.injEq] at h
      obtain ⟨-, rfl⟩ := h
      rfl
    · rw [hp] at h
      simp_all
  · simp only [h1, Bool.false_eq_true, if_false] at h
    by_cases h2 : kind.isUnsigned = true
    · simp only [h2, if_true] at h
      cases hp : parseUint64 (if val == "" then "0" else val)
      · rw [hp] at h
        simp only [Prod.mk.injEq, Option.some.injEq] at h
        obtain ⟨-, rfl⟩ := h
        rfl
      · rw [hp] at h
        simp_all
    · simp only [h2, Bool.false_eq_true, if_false] at h
      by_cases h3 : (kind == Kind.bool) = true
      · simp only [h3, if_true] at h
        by_cases h4 : (val == "on") = true
        · simp only [h4, if_true] at h
          simp_all
        · simp only [h4, Bool.false_eq_true, if_false] at h
          cases hp : parseGoBool (if val == "" then "false" else val)
          · rw [hp] at h
            simp only [Prod.mk.injEq, Option.some.injEq] at h
            obtain ⟨-, rfl⟩ := h
            rfl
          · rw [hp] at h
            simp_all
      · simp only [h3, Bool.false_eq_true, if_false] at h
        by_cases h5 : (kind == Kind.float32) = true
        · simp only [h5, if_true] at h
          cases hp : parseGoFloat (if val == "" then "0.0" else val)
          · rw [hp] at h
            simp only [Prod.mk.injEq, Option.some.injEq] at h
            obtain ⟨-, rfl⟩ := h
            rfl
          · rw [hp] at h
            simp_all
        · simp only [h5, Bool.false_eq_true, if_false] at h
          by_cases h6 : (kind == Kind.float64) = true
          · simp only [h6, if_true] at h
            cases hp : parseGoFloat (if val == "" then "0.0" else val)
            · rw [hp] at h
              simp only [Prod.mk.injEq, Option.some.injEq] at h
              obtain ⟨-, rfl⟩ := h
              rfl
            · rw [hp] at h
              simp_all
          · simp only [h6, Bool.false_eq_true, if_false] at h
            by_cases h7 : (kind == Kind.string) = true
            · simp only [h7, if_true] at h
              simp_all
            · simp only [h7, Bool.false_eq_true, if_false] at h
              simp_all

theorem coerceSlice_spec (k : Kind) (et : Ty) (fn : String) (vs : List String) :
    coerceSlice k et fn vs =
      (vs.map (fun s => (setWithProperType k s (zeroVal et) fn).1),
       vs.filterMap (fun s => (setWithProperType k s (zeroVal et) fn).2)) := by
  induction vs with
  | nil => rfl
  | cons s rest ih =>
    cases h : (setWithProperType k s (zeroVal et) fn).2 <;>
      simp [coerceSlice, ih, h, List.filterMap_cons]

theorem coerceSlice_cat {k : Kind} {et : Ty} {fn : String} {vs : List String}
    {e : Binding.Error} (h : e ∈ (coerceSlice k et fn vs).2) :
    e.category = .deserialization := by
  rw [coerceSlice_spec] at h
  simp only [List.mem_filterMap] at h
  obtain ⟨s, _, hs⟩ := h
  exact setWithProperType_cat (show setWithProperType k s (zeroVal et) fn =
    ((setWithProperType k s (zeroVal et) fn).1, some e) from by
      rw [← hs])

theorem deepEqual_self_aux : ∀ N : Nat,
    (∀ v : Val, sizeOf v < N → deepEqual v v = true) ∧
    (∀ l : List Val, sizeOf l < N → deepEqualList l l = true) := by
  intro N
  induction N with
  | zero =>
    exact ⟨fun v hv => absurd hv (Nat.not_lt_zero _),
           fun l hl => absurd hl (Nat.not_lt_zero _)⟩
  | succ N ih =>
    refine ⟨fun v hv => ?_, fun l hl => ?_⟩
    · cases v with
      | vInt n => simp [deepEqual]
      | vUint n => simp [deepEqual]
      | vBool b => simp [deepEqual]
      | vFloat q => simp [deepEqual]
      | vString s => simp [deepEqual]
      | vPrim => simp [deepEqual]
      | vStruct xs =>
        have : sizeOf xs < N := by simp at hv; omega
        simpa [deepEqual] using ih.2 xs this
      | vPtr o =>
        cases o with
        | none => simp [deepEqual]
        | some x =>
          have : sizeOf x < N := by simp at hv; omega
          simpa [deepEqual] using ih.1 x this
      | vSlice xs =>
        have : sizeOf xs < N := by simp at hv; omega
        simpa [deepEqual] using ih.2 xs this
      | vFile a => simp [deepEqual]
    · cases l with
      | nil => simp [deepEqualList]
      | cons x xs =>
        have hx : sizeOf x < N := by simp at hl; omega
        have hxs : sizeOf xs < N := by simp at hl; omega
        simp [deepEqualList, ih.1 x hx, ih.2 xs hxs]

theorem deepEqual_self (v : Val) : deepEqual v v = true :=
  (deepEqual_self_aux (sizeOf v + 1)).1 v (Nat.lt_succ_self _)

theorem setWithProperType_snd_cat {kind : Kind} {val : String} {field : Val}
    {name : String} {e : Binding.Error}
    (h : (setWithProperType kind val field name).2 = some e) :
    e.category = ErrorCategory.deserialization :=
  setWithProperType_cat (v := (setWithProperType kind val field name).1)
    (by rw [← h])

theorem option_toList_cat {k : Kind} {s fn : String} {v1 : Val}
    {e : Binding.Error} (he : e ∈ ((setWithProperType k s v1 fn).2).toList) :
    e.category = ErrorCategory.deserialization := by
  cases hp : (setWithProperType k s v1 fn).2 with
  | none => rw [hp] at he; simp at he
  | some e' =>
    rw [hp] at he
    simp only [Option.toList_some, List.mem_singleton] at he
    subst he
    exact setWithProperType_snd_cat hp

/-- The key-lookup half of a field iteration never fails and only
appends deserialization-category errors, provided present keys carry
at least one value. -/
theorem mapFieldKey_total {form : Form} {files : Files}
    (hf : sourceOK form = true) (hg : sourceOK files = true)
    (fty : Ty) (fn : String) (v1 : Val) (errs1 : List Binding.Error) :
    ∃ v2 d, mapFieldKey fty fn v1 form files errs1 = some (v2, errs1 ++ d) ∧
      ∀ e ∈ d, e.category = ErrorCategory.deserialization := by
  unfold mapFieldKey
  cases hl : lookupKey form fn with
  | some inputValue =>
    have hne : inputValue ≠ [] := sourceOK_lookup hf hl
    cases fty with
    | slice et =>
      cases inputValue with
      | nil => exact absurd rfl hne
      | cons s rest =>
        exact ⟨_, (coerceSlice (kindOf et) et fn (s :: rest)).2, rfl,
          fun e he => coerceSlice_cat he⟩
    | prim k =>
      cases inputValue with
      | nil => exact absurd rfl hne
      | cons s rest =>
        exact ⟨_, ((setWithProperType (kindOf (.prim k)) s v1 fn).2).toList, rfl,
          fun e he => option_toList_cat he⟩
    | struct_ gs =>
      cases inputValue with
      | nil => exact absurd rfl hne
      | cons s rest =>
        exact ⟨_, ((setWithProperType (kindOf (.struct_ gs)) s v1 fn).2).toList, rfl,
          fun e he => option_toList_cat he⟩
    | ptr t' =>
      cases inputValue with
      | nil => exact absurd rfl hne
      | cons s rest =>
        exact ⟨_, ((setWithProperType (kindOf (.ptr t')) s v1 fn).2).toList, rfl,
          fun e he => option_toList_cat he⟩
    | fileHeader =>
      cases inputValue with
      | nil => exact absurd rfl hne
      | cons s rest =>
        exact ⟨_, ((setWithProperType (kindOf .fileHeader) s v1 fn).2).toList, rfl,
          fun e he => option_toList_cat he⟩
  | none =>
    cases hl2 : lookupKey files fn with
    | none => exact ⟨v1, [], by simp, by simp⟩
    | some inputFile =>
      have hne : inputFile ≠ [] := sourceOK_lookup hg hl2
      cases inputFile with
      | nil => exact absurd rfl hne
      | cons f0 frest =>
        cases fty with
        | prim k => exact ⟨v1, [], by simp, by simp⟩
        | struct_ gs => exact ⟨v1, [], by simp, by simp⟩
        | ptr t' => exact ⟨v1, [], by simp, by simp⟩
        | fileHeader => exact ⟨.vFile (some f0), [], by simp, by simp⟩
        | slice et =>
          cases et with
          | fileHeader =>
            exact ⟨.vSlice ((f0 :: frest).map (fun fid => Val.vFile (some fid))),
              [], by simp, by simp⟩
          | prim k => exact ⟨v1, [], by simp, by simp⟩
          | struct_ gs => exact ⟨v1, [], by simp, by simp⟩
          | ptr t' => exact ⟨v1, [], by simp, by simp⟩
          | slice et' => exact ⟨v1, [], by simp, by simp⟩

/-- A field whose external key is in neither mapping is left
untouched. -/
theorem mapFieldKey_skip {form : Form} {files : Files} {fn : String}
    (h1 : ¬ fn ∈ keysOf form) (h2 : ¬ fn ∈ keysOf files)
    (fty : Ty) (v1 : Val) (errs1 : List Binding.Error) :
    mapFieldKey fty fn v1 form files errs1 = some (v1, errs1) := by
  unfold mapFieldKey
  rw [lookupKey_eq_none h1, lookupKey_eq_none h2]

/-- Strong-induction core: on a mappable shape and source mappings
whose present keys carry at least one value, the mapper and its field
loop always return, extend the incoming error list on the right only,
and append deserialization-category errors only. -/
theorem mapTotal_aux {form : Form} {files : Files}
    (hf : sourceOK form = true) (hg : sourceOK files = true) :
    ∀ N : Nat,
      (∀ t : Ty, sizeOf t < N → mappable t = true →
        ∀ errs : List Binding.Error,
        ∃ out d, mapForm t (zeroVal t) form files errs = some (out, errs ++ d) ∧
          ∀ e ∈ d, e.category = ErrorCategory.deserialization) ∧
      (∀ fs : List FieldT, sizeOf fs < N → mappableFields fs = true →
        ∀ errs : List Binding.Error,
        ∃ outs d,
          mapFields fs (zeroFields fs) form files errs = some (outs, errs ++ d) ∧
          ∀ e ∈ d, e.category = ErrorCategory.deserialization) := by
  intro N
  induction N with
  | zero =>
    exact ⟨fun t ht => absurd ht (Nat.not_lt_zero _),
           fun fs hfs => absurd hfs (Nat.not_lt_zero _)⟩
  | succ N ih =>
    obtain ⟨ihT, ihF⟩ := ih
    constructor
    · intro t ht hm errs
      cases t with
      | struct_ fs =>
        have hsz : sizeOf fs < N := by simp at ht; omega
        have hmf : mappableFields fs = true := by simpa [mappable] using hm
        obtain ⟨outs, d, heq, hcat⟩ := ihF fs hsz hmf errs
        refine ⟨.vStruct outs, d, ?_, hcat⟩
        rw [show zeroVal (.struct_ fs) = Val.vStruct (zeroFields fs) from rfl]
        simp only [mapForm, heq]
      | prim k => simp [mappable] at hm
      | ptr t' => simp [mappable] at hm
      | slice t' => simp [mappable] at hm
      | fileHeader => simp [mappable] at hm
    · intro fs hsz hm errs
      cases fs with
      | nil => exact ⟨[], [], by simp [mapFields, zeroFields], by simp⟩
      | cons f fs' =>
        obtain ⟨nm, tagv, canSet, anon, fty⟩ := f
        unfold mappableFields at hm
        rw [Bool.and_eq_true] at hm
        obtain ⟨hm1, hm2⟩ := hm
        have hszf : sizeOf fs' < N := by simp at hsz; omega
        have hhead : ∃ v1 d1,
            mapField (nm, tagv, canSet, anon, fty) (zeroVal fty) form files errs =
              some (v1, errs ++ d1) ∧
            ∀ e ∈ d1, e.category = ErrorCategory.deserialization := by
          by_cases hc : canSet = true
          · subst hc
            cases fty with
            | prim k =>
              obtain ⟨v2, d2, hk, hcat⟩ :=
                mapFieldKey_total hf hg (.prim k)
                  (if tagv == "" then nm else tagv) (zeroVal (.prim k)) errs
              exact ⟨v2, d2, by simp only [mapField]; rw [hk]; simp, hcat⟩
            | slice et =>
              obtain ⟨v2, d2, hk, hcat⟩ :=
                mapFieldKey_total hf hg (.slice et)
                  (if tagv == "" then nm else tagv) (zeroVal (.slice et)) errs
              exact ⟨v2, d2, by simp only [mapField]; rw [hk]; simp, hcat⟩
            | fileHeader =>
              cases anon with
              | true => simp at hm1
              | false =>
                obtain ⟨v2, d2, hk, hcat⟩ :=
                  mapFieldKey_total hf hg .fileHeader
                    (if tagv == "" then nm else tagv) (zeroVal .fileHeader) errs
                exact ⟨v2, d2, by simp only [mapField]; rw [hk]; simp, hcat⟩
            | struct_ gs =>
              have hmg : mappable (.struct_ gs) = true := by
                cases anon <;> simpa using hm1
              have hszg : sizeOf (Ty.struct_ gs) < N := by simp at hsz ⊢; omega
              obtain ⟨inner, d1, hmap, hcat1⟩ := ihT (.struct_ gs) hszg hmg errs
              obtain ⟨v2, d2, hk, hcat2⟩ :=
                mapFieldKey_total hf hg (.struct_ gs)
                  (if tagv == "" then nm else tagv) inner (errs ++ d1)
              refine ⟨v2, d1 ++ d2, ?_, ?_⟩
              · simp only [mapField]
                rw [hmap]
                simp only [beq_iff_eq] at hk
                simp [hk, List.append_assoc]
              · intro e he
                rcases List.mem_append.mp he with h1 | h2
                · exact hcat1 e h1
                · exact hcat2 e h2
            | ptr t' =>
              cases anon with
              | false =>
                obtain ⟨v2, d2, hk, hcat⟩ :=
                  mapFieldKey_total hf hg (.ptr t')
                    (if tagv == "" then nm else tagv) (zeroVal (.ptr t')) errs
                exact ⟨v2, d2, by simp only [mapField]; rw [hk]; simp, hcat⟩
              | true =>
                have hmt : mappable t' = true := by simpa using hm1
                have hszt : sizeOf t' < N := by simp at hsz ⊢; omega
                obtain ⟨inner, d1, hmap, hcat1⟩ := ihT t' hszt hmt errs
                by_cases hde : deepEqual inner (zeroVal t') = true
                · obtain ⟨v2, d2, hk, hcat2⟩ :=
                    mapFieldKey_total hf hg (.ptr t')
                      (if tagv == "" then nm else tagv) (.vPtr none) (errs ++ d1)
                  refine ⟨v2, d1 ++ d2, ?_, ?_⟩
                  · simp only [mapField]
                    rw [hmap]
                    simp only [hde, if_true]
                    simp only [beq_iff_eq] at hk
                    simp [hk, List.append_assoc]
                  · intro e he
                    rcases List.mem_append.mp he with h1 | h2
                    · exact hcat1 e h1
                    · exact hcat2 e h2
                · obtain ⟨v2, d2, hk, hcat2⟩ :=
                    mapFieldKey_total hf hg (.ptr t')
                      (if tagv == "" then nm else tagv) (.vPtr (some inner))
                      (errs ++ d1)
                  refine ⟨v2, d1 ++ d2, ?_, ?_⟩
                  · simp only [mapField]
                    rw [hmap]
                    simp only [hde, Bool.false_eq_true, if_false]
                    simp only [beq_iff_eq] at hk
                    simp [hk, List.append_assoc]
                  · intro e he
                    rcases List.mem_append.mp he with h1 | h2
                    · exact hcat1 e h1
                    · exact hcat2 e h2
          · have hc' : canSet = false := by
              cases canSet
              · rfl
              · exact absurd rfl hc
            subst hc'
            exact ⟨zeroVal fty, [], by simp [mapField], by simp⟩
        obtain ⟨v1, d1, hhead_eq, hcat1⟩ := hhead
        obtain ⟨outs, d3, htail, hcat3⟩ := ihF fs' hszf hm2 (errs ++ d1)
        refine ⟨v1 :: outs, d1 ++ d3, ?_, ?_⟩
        · rw [show zeroFields ((nm, tagv, canSet, anon, fty) :: fs') =
              zeroVal fty :: zeroFields fs' from rfl]
          simp only [mapFields]
          rw [hhead_eq]
          simp [htail, List.append_assoc]
        · intro e he
          rcases List.mem_append.mp he with h1 | h3
          · exact hcat1 e h1
          · exact hcat3 e h3

/-- Strong-induction core: on a mappable shape none of whose external
key names occurs in either source mapping, the mapper returns the
zero value unchanged and appends no errors. -/
theorem mapZero_aux {form : Form} {files : Files} :
    ∀ N : Nat,
      (∀ t : Ty, sizeOf t < N → mappable t = true →
        (∀ k ∈ tyNames t, ¬ k ∈ keysOf form ∧ ¬ k ∈ keysOf files) →
        ∀ errs : List Binding.Error,
          mapForm t (zeroVal t) form files errs = some (zeroVal t, errs)) ∧
      (∀ fs : List FieldT, sizeOf fs < N → mappableFields fs = true →
        (∀ k ∈ fieldsNames fs, ¬ k ∈ keysOf form ∧ ¬ k ∈ keysOf files) →
        ∀ errs : List Binding.Error,
          mapFields fs (zeroFields fs) form files errs =
            some (zeroFields fs, errs)) := by
  intro N
  induction N with
  | zero =>
    exact ⟨fun t ht => absurd ht (Nat.not_lt_zero _),
           fun fs hfs => absurd hfs (Nat.not_lt_zero _)⟩
  | succ N ih =>
    obtain ⟨ihT, ihF⟩ := ih
    constructor
    · intro t ht hm hdisj errs
      cases t with
      | struct_ fs =>
        have hsz : sizeOf fs < N := by simp at ht; omega
        have hmf : mappableFields fs = true := by simpa [mappable] using hm
        have hdisj' : ∀ k ∈ fieldsNames fs, ¬ k ∈ keysOf form ∧ ¬ k ∈ keysOf files := by
          intro k hk
          exact hdisj k (by simpa [tyNames] using hk)
        have heq := ihF fs hsz hmf hdisj' errs
        rw [show zeroVal (.struct_ fs) = Val.vStruct (zeroFields fs) from rfl]
        simp only [mapForm, heq]
      | prim k => simp [mappable] at hm
      | ptr t' => simp [mappable] at hm
      | slice t' => simp [mappable] at hm
      | fileHeader => simp [mappable] at hm
    · intro fs hsz hm hdisj errs
      cases fs with
      | nil => simp [mapFields, zeroFields]
      | cons f fs' =>
        obtain ⟨nm, tagv, canSet, anon, fty⟩ := f
        unfold mappableFields at hm
        rw [Bool.and_eq_true] at hm
        obtain ⟨hm1, hm2⟩ := hm
        have hszf : sizeOf fs' < N := by simp at hsz; omega
        have hfn : ¬ (if tagv == "" then nm else tagv) ∈ keysOf form ∧
            ¬ (if tagv == "" then nm else tagv) ∈ keysOf files := by
          refine hdisj _ ?_
          rw [show fieldsNames ((nm, tagv, canSet, anon, fty) :: fs') =
              (if tagv == "" then nm else tagv) ::
                (tyNames fty ++ fieldsNames fs') from rfl]
          exact List.mem_cons_self _ _
        have hdisj_nested : ∀ k ∈ tyNames fty,
            ¬ k ∈ keysOf form ∧ ¬ k ∈ keysOf files := by
          intro k hk
          refine hdisj k ?_
          rw [show fieldsNames ((nm, tagv, canSet, anon, fty) :: fs') =
              (if tagv == "" then nm else tagv) ::
                (tyNames fty ++ fieldsNames fs') from rfl]
          exact List.mem_cons_of_mem _ (List.mem_append_left _ hk)
        have hdisj_tail : ∀ k ∈ fieldsNames fs',
            ¬ k ∈ keysOf form ∧ ¬ k ∈ keysOf files := by
          intro k hk
          refine hdisj k ?_
          rw [show fieldsNames ((nm, tagv, canSet, anon, fty) :: fs') =
              (if tagv == "" then nm else tagv) ::
                (tyNames fty ++ fieldsNames fs') from rfl]
          exact List.mem_cons_of_mem _ (List.mem_append_right _ hk)
        have hhead : mapField (nm, tagv, canSet, anon, fty) (zeroVal fty)
            form files errs = some (zeroVal fty, errs) := by
          by_cases hc : canSet = true
          · subst hc
            cases fty with
            | prim k =>
              simp only [mapField]
              rw [mapFieldKey_skip hfn.1 hfn.2]
              simp
            | slice et =>
              simp only [mapField]
              rw [mapFieldKey_skip hfn.1 hfn.2]
              simp
            | fileHeader =>
              cases anon with
              | true => simp at hm1
              | false =>
                simp only [mapField]
                rw [mapFieldKey_skip hfn.1 hfn.2]
                simp
            | struct_ gs =>
              have hmg : mappable (.struct_ gs) = true := by
                cases anon <;> simpa using hm1
              have hszg : sizeOf (Ty.struct_ gs) < N := by simp at hsz ⊢; omega
              have hmap := ihT (.struct_ gs) hszg hmg
                (fun k hk => hdisj_nested k hk) errs
              simp only [mapField]
              rw [hmap]
              simp only [beq_iff_eq] at hfn
              simp [mapFieldKey_skip hfn.1 hfn.2]
            | ptr t' =>
              cases anon with
              | false =>
                simp only [mapField]
                rw [mapFieldKey_skip hfn.1 hfn.2]
                simp
              | true =>
                have hmt : mappable t' = true := by simpa using hm1
                have hszt : sizeOf t' < N := by simp at hsz ⊢; omega
                have hmap := ihT t' hszt hmt
                  (fun k hk => hdisj_nested k hk) errs
                simp only [mapField]
                rw [hmap]
                simp only [deepEqual_self, if_true]
                simp only [beq_iff_eq] at hfn
                simp [mapFieldKey_skip hfn.1 hfn.2, zeroVal]
          · have hc' : canSet = false := by
              cases canSet
              · rfl
              · exact absurd rfl hc
            subst hc'
            simp [mapField]
        rw [show zeroFields ((nm, tagv, canSet, anon, fty) :: fs') =
            zeroVal fty :: zeroFields fs' from rfl]
        simp only [mapFields]
        rw [hhead]
        simp [ihF fs' hszf hm2 hdisj_tail errs]

theorem truncInt_zero (w : Nat) : truncInt w 0 = 0 := by
  unfold truncInt
  have h : (0 : Int) < ((2 ^ (w - 1) : Nat) : Int) := by
    exact_mod_cast Nat.pos_pow_of_pos (w - 1) (by norm_num)
  simp [h]

theorem truncUint_zero (w : Nat) : truncUint w 0 = 0 := by
  simp [truncUint]

/-! ### Claim theorems -/

/-- C10: for every token and every target field whose kind has no case
in the coercion switch (not a signed/unsigned integer, boolean,
float32, float64 or string), `setWithProperType` silently succeeds:
it returns no error and leaves the field at its prior value. -/
theorem unsupportedKindNoop (k : Kind) (val : String) (field : Val)
    (name : String) (h : k.isSupported = false) :
    setWithProperType k val field name = (field, none) := by
  unfold Kind.isSupported at h
  simp only [Bool.or_eq_false_iff, beq_eq_false_iff_ne] at h
  obtain ⟨⟨⟨⟨⟨h1, h2⟩, h3⟩, h4⟩, h5⟩, h6⟩ := h
  unfold setWithProperType
  simp [h1, h2, beq_eq_false_iff_ne.mpr h3, beq_eq_false_iff_ne.mpr h4,
    beq_eq_false_iff_ne.mpr h5, beq_eq_false_iff_ne.mpr h6]

theorem unsupportedKindNoop_witness :
    setWithProperType Kind.uintptr "42" Val.vPrim "Field" = (Val.vPrim, none) :=
  unsupportedKindNoop Kind.uintptr "42" Val.vPrim "Field" (by decide)

/-- C4: boolean coercion maps the token `"on"` to true unconditionally,
the empty token to false, the standard strconv true/false token set to
the respective boolean, and any other token to exactly one
deserialization error with the field left at its prior (zero) value. -/
theorem boolCoercionSpec (val : String) (field : Val) (name : String) :
    (val = "on" → setWithProperType .bool val field name = (.vBool true, none)) ∧
    (val = "" → setWithProperType .bool val field name = (.vBool false, none)) ∧
    (∀ b, val ≠ "on" → parseGoBool val = some b →
      setWithProperType .bool val field name = (.vBool b, none)) ∧
    (val ≠ "on" → val ≠ "" → parseGoBool val = none →
      setWithProperType .bool val field name =
        (field, some ⟨.deserialization, errMsg name val "bool"⟩)) := by
  refine ⟨?_, ?_, ?_, ?_⟩
  · intro hval
    subst hval
    rfl
  · intro hval
    subst hval
    rfl
  · intro b hon hb
    unfold setWithProperType
    simp only [Kind.isSigned, Kind.isUnsigned, Bool.false_eq_true, if_false,
      beq_self_eq_true, if_true]
    rw [if_neg (by simpa using hon)]
    by_cases hval : val = ""
    · subst hval
      simp [parseGoBool] at hb
    · rw [if_neg (by simpa using hval), hb]
  · intro hon hval hnone
    unfold setWithProperType
    simp only [Kind.isSigned, Kind.isUnsigned, Bool.false_eq_true, if_false,
      beq_self_eq_true, if_true]
    rw [if_neg (by simpa using hon), if_neg (by simpa using hval), hnone]

theorem boolCoercionSpec_witness :
    setWithProperType .bool "on" (.vBool false) "Remember" = (.vBool true, none) ∧
    setWithProperType .bool "" (.vBool false) "Remember" = (.vBool false, none) ∧
    setWithProperType .bool "1" (.vBool false) "Remember" = (.vBool true, none) ∧
    setWithProperType .bool "banana" (.vBool false) "Remember" =
      (.vBool false, some ⟨.deserialization,
        "field \"Remember\" cannot parse \"banana\" as bool"⟩) := by
  refine ⟨?_, ?_, ?_, ?_⟩
  · exact (boolCoercionSpec "on" (.vBool false) "Remember").1 rfl
  · exact (boolCoercionSpec "" (.vBool false) "Remember").2.1 rfl
  · exact (boolCoercionSpec "1" (.vBool false) "Remember").2.2.1 true
      (by decide) (by decide)
  · exact (boolCoercionSpec "banana" (.vBool false) "Remember").2.2.2
      (by decide) (by decide) (by decide)

/-- C3 counterexample: for an `int8` field the token `"300"` parses in
64 bits, so the switch reports no error and `SetInt` silently truncates
the value to 44 — the claim instead requires a single deserialization
error with the field keeping its zero value whenever the token
overflows the field. -/
theorem int8OverflowSilentlyTruncates :
    (setWithProperType .int8 "300" (.vInt 0) "Age").2 = none ∧
    (setWithProperType .int8 "300" (.vInt 0) "Age").1 = .vInt 44 := by
  exact ⟨rfl, rfl⟩

/-- C3 (amended): for signed and unsigned integer fields an empty
token coerces the field to zero; a base-10 token in the 64-bit parse
range assigns the parsed value truncated to the field's width (a token
that fits 64 bits but not the field is silently truncated, not an
error); a token that is non-numeric or outside the 64-bit range
produces a single deserialization error with the exact message
`field "<name>" cannot parse "<token>" as int`/`uint` and the field
keeps its prior (zero) value. -/
theorem intCoercionSpec (k : Kind) (val : String) (field : Val) (name : String) :
    (k.isSigned = true →
      (val = "" → setWithProperType k val field name = (.vInt 0, none)) ∧
      (∀ v : Int, parseInt64 val = some v →
        setWithProperType k val field name =
          (.vInt (truncInt k.width v), none)) ∧
      (val ≠ "" → parseInt64 val = none →
        setWithProperType k val field name =
          (field, some ⟨.deserialization, errMsg name val "int"⟩))) ∧
    (k.isUnsigned = true →
      (val = "" → setWithProperType k val field name = (.vUint 0, none)) ∧
      (∀ v : Nat, parseUint64 val = some v →
        setWithProperType k val field name =
          (.vUint (truncUint k.width v), none)) ∧
      (val ≠ "" → parseUint64 val = none →
        setWithProperType k val field name =
          (field, some ⟨.deserialization, errMsg name val "uint"⟩))) := by
  constructor
  · intro hsig
    refine ⟨?_, ?_, ?_⟩
    · intro hval
      subst hval
      unfold setWithProperType
      simp only [hsig, if_true, beq_self_eq_true]
      rw [show parseInt64 "0" = some 0 from rfl]
      simp [truncInt_zero]
    · intro v hv
      have hval : val ≠ "" := by
        intro hval
        subst hval
        simp [parseInt64] at hv
      unfold setWithProperType
      simp only [hsig, if_true]
      rw [if_neg (by simpa using hval), hv]
    · intro hval hnone
      unfold setWithProperType
      simp only [hsig, if_true]
      rw [if_neg (by simpa using hval), hnone]
  · intro huns
    have hsig : k.isSigned = false := by
      cases k <;> simp_all [Kind.isSigned, Kind.isUnsigned]
    refine ⟨?_, ?_, ?_⟩
    · intro hval
      subst hval
      unfold setWithProperType
      simp only [hsig, Bool.false_eq_true, if_false, huns, if_true,
        beq_self_eq_true]
      rw [show parseUint64 "0" = some 0 from rfl]
      simp [truncUint_zero]
    · intro v hv
      have hval : val ≠ "" := by
        intro hval
        subst hval
        simp [parseUint64, digitsVal] at hv
      unfold setWithProperType
      simp only [hsig, Bool.false_eq_true, if_false, huns, if_true]
      rw [if_neg (by simpa using hval), hv]
    · intro hval hnone
      unfold setWithProperType
      simp only [hsig, Bool.false_eq_true, if_false, huns, if_true]
      rw [if_neg (by simpa using hval), hnone]

theorem intCoercionSpec_witness :
    setWithProperType .int "" (.vInt 7) "Age" = (.vInt 0, none) ∧
    setWithProperType .int "42" (.vInt 0) "Age" = (.vInt 42, none) ∧
    setWithProperType .uint "abc" (.vUint 0) "Age" =
      (.vUint 0, some ⟨.deserialization,
        "field \"Age\" cannot parse \"abc\" as uint"⟩) := by
  refine ⟨?_, ?_, ?_⟩
  · exact ((intCoercionSpec .int "" (.vInt 7) "Age").1 rfl).1 rfl
  · have h := ((intCoercionSpec .int "42" (.vInt 0) "Age").1 rfl).2.1 42
      (by decide)
    simpa using h
  · have h := ((intCoercionSpec .uint "abc" (.vUint 0) "Age").2 rfl).2.2
      (by decide) (by decide)
    simpa using h

/-- C1 counterexample: a writable but non-anonymous pointer-to-record
field (`Inner *struct{ Name string }`) is never allocated or recursed
into — the guard requires `typeField.Anonymous`.  With a source key
matching the nested field, the mapper still leaves the field nil and
never produces the populated sub-record the claim's
allocate-and-recurse behavior would yield. -/
theorem namedPtrFieldNotRecursed :
    mapForm (.struct_ [("Inner", "", true, false,
        .ptr (.struct_ [("Name", "", true, false, .prim .string)]))])
      (zeroVal (.struct_ [("Inner", "", true, false,
        .ptr (.struct_ [("Name", "", true, false, .prim .string)]))]))
      [("Name", ["alice"])] [] [] =
      some (.vStruct [.vPtr none], []) ∧
    Val.vPtr (none : Option Val) ≠
      .vPtr (some (.vStruct [.vString "alice"])) := by
  constructor
  · rfl
  · simp

/-- C1 (amended): for every externally-writable anonymous (embedded)
pointer field the mapper allocates a fresh target and recurses into
it; when the recursion leaves the target deep-equal to the zero value
the allocation is discarded and the field stays nil, and when it does
not, the populated allocation is kept.  Consequently an embedded
optional record field with no matching source keys remains nil. -/
theorem embeddedPtrFieldNoKeysStaysNil {form : Form} {files : Files}
    (nm tagv : String) (t' : Ty) (v : Val) (errs : List Binding.Error)
    (hm : mappable t' = true)
    (hfn : ¬ (if tagv == "" then nm else tagv) ∈ keysOf form ∧
      ¬ (if tagv == "" then nm else tagv) ∈ keysOf files) :
    ((∀ k ∈ tyNames t', ¬ k ∈ keysOf form ∧ ¬ k ∈ keysOf files) →
      mapField (nm, tagv, true, true, .ptr t') v form files errs =
        some (.vPtr none, errs)) ∧
    (∀ inner errs',
      mapForm t' (zeroVal t') form files errs = some (inner, errs') →
      deepEqual inner (zeroVal t') = false →
      mapField (nm, tagv, true, true, .ptr t') v form files errs =
        some (.vPtr (some inner), errs')) := by
  constructor
  · intro hdisj
    have hz := (mapZero_aux (sizeOf t' + 1)).1 t' (Nat.lt_succ_self _) hm
      hdisj errs
    simp only [mapField]
    rw [hz]
    simp only [deepEqual_self, if_true]
    simp only [beq_iff_eq] at hfn
    simp [mapFieldKey_skip hfn.1 hfn.2]
  · intro inner errs' hmap hde
    simp only [mapField]
    rw [hmap]
    simp only [hde, Bool.false_eq_true, if_false]
    simp only [beq_iff_eq] at hfn
    simp [mapFieldKey_skip hfn.1 hfn.2]

theorem embeddedPtrFieldNoKeysStaysNil_witness :
    mapField ("Opt", "", true, true,
        .ptr (.struct_ [("Name", "", true, false, .prim .string)]))
      (.vPtr none) [("Other", ["x"])] [] [] = some (.vPtr none, []) ∧
    mapField ("Opt", "", true, true,
        .ptr (.struct_ [("Name", "", true, false, .prim .string)]))
      (.vPtr none) [("Name", ["alice"])] [] [] =
      some (.vPtr (some (.vStruct [.vString "alice"])), []) := by
  constructor
  · exact (embeddedPtrFieldNoKeysStaysNil "Opt" ""
      (.struct_ [("Name", "", true, false, .prim .string)]) (.vPtr none) []
      (by decide) (by decide)).1 (by decide)
  · exact (embeddedPtrFieldNoKeysStaysNil "Opt" ""
      (.struct_ [("Name", "", true, false, .prim .string)]) (.vPtr none) []
      (by decide) (by decide)).2
      (.vStruct [.vString "alice"]) [] (by rfl) (by rfl)

/-- C2 counterexample: on a plain mapping that binds key `"A"` to zero
values, the field loop falls into the single-value branch and indexes
`inputValue[0]` out of range — a runtime panic (modelled as `none`),
not a silently skipped field, contradicting both "never raises a fatal
error" and the "not overwritten" reading of the zero-values clause. -/
theorem emptyValueListPanics :
    mapForm (.struct_ [("A", "", true, false, .slice (.prim .string))])
      (zeroVal (.struct_ [("A", "", true, false, .slice (.prim .string))]))
      [("A", [])] [] [] = none := by
  rfl

/-- C2 (amended): on source mappings in which every present key
carries at least one value (the Source Mapping invariant of the data
model), the Form Mapper never fails: it returns normally for every
mappable model shape, extends the incoming Error Collection on the
right only (per-field coercion failures are recorded and traversal
continues to the end of the field list), and every appended error has
category deserialization. -/
theorem mapFormTotalOnSourceMappings {form : Form} {files : Files} (t : Ty)
    (hm : mappable t = true) (hf : sourceOK form = true)
    (hg : sourceOK files = true) (errs : List Binding.Error) :
    ∃ out d, mapForm t (zeroVal t) form files errs = some (out, errs ++ d) ∧
      ∀ e ∈ d, e.category = ErrorCategory.deserialization :=
  (mapTotal_aux hf hg (sizeOf t + 1)).1 t (Nat.lt_succ_self _) hm errs

theorem mapFormTotalOnSourceMappings_witness :
    (∃ out d,
      mapForm (.struct_ [("Age", "", true, false, .prim .int),
          ("Name", "", true, false, .prim .string)])
        (zeroVal (.struct_ [("Age", "", true, false, .prim .int),
          ("Name", "", true, false, .prim .string)]))
        [("Age", ["abc"]), ("Name", ["bob"])] [] [] = some (out, [] ++ d) ∧
      ∀ e ∈ d, e.category = ErrorCategory.deserialization) ∧
    mapForm (.struct_ [("Age", "", true, false, .prim .int),
        ("Name", "", true, false, .prim .string)])
      (zeroVal (.struct_ [("Age", "", true, false, .prim .int),
        ("Name", "", true, false, .prim .string)]))
      [("Age", ["abc"]), ("Name", ["bob"])] [] [] =
      some (.vStruct [.vInt 0, .vString "bob"],
        [⟨.deserialization, "field \"Age\" cannot parse \"abc\" as int"⟩]) := by
  constructor
  · exact mapFormTotalOnSourceMappings
      (.struct_ [("Age", "", true, false, .prim .int),
        ("Name", "", true, false, .prim .string)])
      (by decide) (by decide) (by decide) []
  · rfl

/-- C5: for an externally-writable field without a nested-shape
recursion whose external key is bound in the plain mapping (to at
least one value, per the Source Mapping invariant): a sequence field
gets a fresh sequence of the same length with every position coerced
independently by `setWithProperType` on fresh zero elements and one
error collected per failed position; any other field coerces only the
first matched value into the field; and in either case the file
mapping is never consulted — the result is independent of it. -/
theorem plainKeyFieldMapping (nm tagv : String) (anon : Bool) (fty : Ty)
    (form : Form) (files : Files) (v : Val) (errs : List Binding.Error)
    (s : String) (rest : List String)
    (hrec : stepsIntoNested fty anon = false)
    (hl : lookupKey form (if tagv == "" then nm else tagv) = some (s :: rest)) :
    (∀ et, fty = .slice et →
      mapField (nm, tagv, true, anon, fty) v form files errs =
        some (.vSlice ((s :: rest).map
            (fun sv => (setWithProperType (kindOf et) sv (zeroVal et)
              (if tagv == "" then nm else tagv)).1)),
          errs ++ (s :: rest).filterMap
            (fun sv => (setWithProperType (kindOf et) sv (zeroVal et)
              (if tagv == "" then nm else tagv)).2))) ∧
    ((∀ et, fty ≠ .slice et) →
      mapField (nm, tagv, true, anon, fty) v form files errs =
        some ((setWithProperType (kindOf fty) s v
            (if tagv == "" then nm else tagv)).1,
          errs ++ ((setWithProperType (kindOf fty) s v
            (if tagv == "" then nm else tagv)).2).toList)) ∧
    (∀ files', mapField (nm, tagv, true, anon, fty) v form files' errs =
      mapField (nm, tagv, true, anon, fty) v form files errs) := by
  have main : ∀ fl : Files,
      mapField (nm, tagv, true, anon, fty) v form fl errs =
        (match fty with
         | .slice et =>
           some (.vSlice ((s :: rest).map
               (fun sv => (setWithProperType (kindOf et) sv (zeroVal et)
                 (if tagv == "" then nm else tagv)).1)),
             errs ++ (s :: rest).filterMap
               (fun sv => (setWithProperType (kindOf et) sv (zeroVal et)
                 (if tagv == "" then nm else tagv)).2))
         | _ =>
           some ((setWithProperType (kindOf fty) s v
               (if tagv == "" then nm else tagv)).1,
             errs ++ ((setWithProperType (kindOf fty) s v
               (if tagv == "" then nm else tagv)).2).toList)) := by
    intro fl
    cases fty with
    | prim k =>
      simp only [mapField]
      unfold mapFieldKey
      rw [hl]
      rfl
    | slice et =>
      simp only [mapField]
      unfold mapFieldKey
      rw [hl]
      simp [coerceSlice_spec]
    | struct_ gs => simp [stepsIntoNested] at hrec
    | ptr t' =>
      cases anon with
      | true => simp [stepsIntoNested] at hrec
      | false =>
        simp only [mapField]
        unfold mapFieldKey
        rw [hl]
        rfl
    | fileHeader =>
      cases anon with
      | true => simp [stepsIntoNested] at hrec
      | false =>
        simp only [mapField]
        unfold mapFieldKey
        rw [hl]
        rfl
  refine ⟨?_, ?_, ?_⟩
  · intro et heq
    subst heq
    simpa using main files
  · intro hne
    cases fty with
    | slice et => exact absurd rfl (hne et)
    | prim k => simpa using main files
    | struct_ gs => simpa using main files
    | ptr t' => simpa using main files
    | fileHeader => simpa using main files
  · intro files'
    rw [main files', main files]

theorem plainKeyFieldMapping_witness :
    mapField ("Tags", "", true, false, .slice (.prim .string))
      (.vSlice []) [("Tags", ["a", "b"])] [("Tags", [9])] [] =
      some (.vSlice [.vString "a", .vString "b"], []) ∧
    mapField ("Age", "", true, false, .prim .int)
      (.vInt 0) [("Age", ["17"])] [("Age", [9])] [] =
      some (.vInt 17, []) := by
  constructor
  · have h := (plainKeyFieldMapping "Tags" "" false (.slice (.prim .string))
      [("Tags", ["a", "b"])] [("Tags", [9])] (.vSlice []) [] "a" ["b"]
      (by decide) (by decide)).1 (.prim .string) rfl
    simpa using h
  · have h := (plainKeyFieldMapping "Age" "" false (.prim .int)
      [("Age", ["17"])] [("Age", [9])] (.vInt 0) [] "17" []
      (by decide) (by decide)).2.1 (by intro et h; cases h)
    simpa using h

/-- C6: in the final Error Collection of a form-binding request, all
deserialization errors (body decode and field coercion, appended in
stage order) form a prefix, and a validation failure contributes
exactly one validation-category error wrapping the validator's
aggregate error, placed after them. -/
theorem errorStageOrder (t : Ty) (form : Form) (perr : Option String)
    (valRes : Option String) (hm : mappable t = true)
    (hf : sourceOK form = true) :
    ∃ out d, formStep t perr form valRes =
      some (out, d ++ (match valRes with
        | some e => [⟨ErrorCategory.validation, e⟩]
        | none => [])) ∧
      ∀ e ∈ d, e.category = ErrorCategory.deserialization := by
  have hg : sourceOK ([] : Files) = true := rfl
  cases perr with
  | none =>
    obtain ⟨out, d', heq, hcat⟩ :=
      (mapTotal_aux hf hg (sizeOf t + 1)).1 t (Nat.lt_succ_self _) hm []
    refine ⟨out, d', ?_, hcat⟩
    unfold formStep
    simp only []
    rw [heq]
    cases valRes <;> simp [validateAndMap]
  | some pe =>
    obtain ⟨out, d', heq, hcat⟩ :=
      (mapTotal_aux hf hg (sizeOf t + 1)).1 t (Nat.lt_succ_self _) hm
        [⟨ErrorCategory.deserialization, pe⟩]
    refine ⟨out, ⟨ErrorCategory.deserialization, pe⟩ :: d', ?_, ?_⟩
    · unfold formStep
      simp only []
      rw [heq]
      cases valRes <;> simp [validateAndMap]
    · intro e he
      rcases List.mem_cons.mp he with h1 | h2
      · subst h1
        rfl
      · exact hcat e h2

theorem errorStageOrder_witness :
    ∃ out d, formStep (.struct_ [("Name", "", true, false, .prim .string)])
      (some "bad body") [("Name", ["bob"])] (some "Name is too short") =
      some (out, d ++ [⟨ErrorCategory.validation, "Name is too short"⟩]) ∧
      ∀ e ∈ d, e.category = ErrorCategory.deserialization :=
  errorStageOrder (.struct_ [("Name", "", true, false, .prim .string)])
    [("Name", ["bob"])] (some "bad body") (some "Name is too short")
    (by decide) (by decide)

/-- C7 counterexample: a failing `ReadForm` (for example a truncated
multipart body) makes the handler assign the nil form to
`r.MultipartForm`, so the already-parsed latch is unset afterwards and
a second pass through the handler parses the body again — the parse
ceiling is reported used (`some 10485760`) on both passes, refuting
"parsing happens at most once per request".  Within each pass, one
deserialization error is appended and mapping is skipped. -/
theorem failedParseReparses :
    (multipartStep (Ty.struct_ []) ⟨0⟩ none (fun _ => Except.error "bad") none =
      some (none, Val.vStruct [],
        [⟨ErrorCategory.deserialization, "bad"⟩], some 10485760)) ∧
    ((some (none, Val.vStruct [], [⟨ErrorCategory.deserialization, "bad"⟩],
        some 10485760) :
      Option (Option MultipartData × Val × List Binding.Error × Option Int)).map
        (fun r => multipartStep (Ty.struct_ []) ⟨0⟩ r.1
          (fun _ => Except.error "bad") none) =
      some (some (none, Val.vStruct [],
        [⟨ErrorCategory.deserialization, "bad"⟩], some 10485760))) := by
  exact ⟨rfl, rfl⟩

/-- C7 (amended): when the already-parsed latch is set, the multipart
handler does not parse at all — the pass reports no parse-ceiling use,
its result is independent of the parser, the latch is unchanged, and
the Error Collection of the pass holds exactly the mapping errors plus
the validation outcome (no parse entries, hence nothing duplicated on
re-invocation).  When the latch is unset, parsing is invoked once with
the configured memory ceiling, and a parse failure appends exactly one
deserialization error, leaves the latch unset and skips mapping. -/
theorem multipartIdempotentOnLatch (t : Ty) (opts : Options)
    (d : MultipartData) (parse : Int → Except String MultipartData)
    (valRes : Option String) (hm : mappable t = true)
    (hf : sourceOK d.1 = true) (hg : sourceOK d.2 = true) :
    (∃ out errs, mapForm t (zeroVal t) d.1 d.2 [] = some (out, errs) ∧
      (∀ e ∈ errs, e.category = ErrorCategory.deserialization) ∧
      multipartStep t opts (some d) parse valRes =
        some (some d, out, validateAndMap valRes errs, none) ∧
      ∀ parse', multipartStep t opts (some d) parse' valRes =
        multipartStep t opts (some d) parse valRes) ∧
    (∀ e, parse (parseOptions opts).maxMemory = .error e →
      multipartStep t opts none parse valRes =
        some (none, zeroVal t,
          validateAndMap valRes [⟨ErrorCategory.deserialization, e⟩],
          some (parseOptions opts).maxMemory)) := by
  constructor
  · obtain ⟨out, errs, heq, hcat⟩ :=
      (mapTotal_aux hf hg (sizeOf t + 1)).1 t (Nat.lt_succ_self _) hm []
    refine ⟨out, [] ++ errs, heq, fun e he => hcat e (by simpa using he), ?_, ?_⟩
    · unfold multipartStep
      simp only []
      rw [heq]
    · intro parse'
      unfold multipartStep
      simp only []
  · intro e hparse
    unfold multipartStep
    simp only []
    rw [hparse]

theorem multipartIdempotentOnLatch_witness :
    ∃ out errs,
      mapForm (.struct_ [("Name", "", true, false, .prim .string)])
        (zeroVal (.struct_ [("Name", "", true, false, .prim .string)]))
        [("Name", ["bob"])] [] [] = some (out, errs) ∧
      (∀ e ∈ errs, e.category = ErrorCategory.deserialization) ∧
      multipartStep (.struct_ [("Name", "", true, false, .prim .string)]) ⟨0⟩
        (some ([("Name", ["bob"])], [])) (fun _ => Except.error "bad") none =
        some (some ([("Name", ["bob"])], []), out, validateAndMap none errs,
          none) ∧
      ∀ parse',
        multipartStep (.struct_ [("Name", "", true, false, .prim .string)]) ⟨0⟩
          (some ([("Name", ["bob"])], [])) parse' none =
        multipartStep (.struct_ [("Name", "", true, false, .prim .string)]) ⟨0⟩
          (some ([("Name", ["bob"])], [])) (fun _ => Except.error "bad") none :=
  (multipartIdempotentOnLatch (.struct_ [("Name", "", true, false, .prim .string)])
    ⟨0⟩ ([("Name", ["bob"])], []) (fun _ => Except.error "bad") none
    (by decide) (by decide) (by decide)).1

/-- C8: when the decoder fails on the fresh zero instance without
touching it (Go's `json.Decoder` behavior on the truncated body `{`),
the JSON binding step appends exactly one deserialization-category
error and hands the downstream handler a zero-valued instance. -/
theorem jsonMalformedBody (t : Ty) (decode : Val → Val × Option String)
    (e : String) (valRes : Option String)
    (hdec : decode (zeroVal t) = (zeroVal t, some e)) :
    (jsonStep t true decode valRes).1 = zeroVal t ∧
    ((jsonStep t true decode valRes).2.filter
        (fun er => er.category == ErrorCategory.deserialization)) =
      [⟨ErrorCategory.deserialization, e⟩] := by
  unfold jsonStep
  rw [if_pos rfl, hdec]
  cases valRes <;> simp [validateAndMap]

theorem jsonMalformedBody_witness :
    (jsonStep (.struct_ [("Username", "", true, false, .prim .string)]) true
      (fun v => (v, some "unexpected EOF")) none).1 =
      zeroVal (.struct_ [("Username", "", true, false, .prim .string)]) ∧
    ((jsonStep (.struct_ [("Username", "", true, false, .prim .string)]) true
      (fun v => (v, some "unexpected EOF")) none).2.filter
        (fun er => er.category == ErrorCategory.deserialization)) =
      [⟨ErrorCategory.deserialization, "unexpected EOF"⟩] :=
  jsonMalformedBody (.struct_ [("Username", "", true, false, .prim .string)])
    (fun v => (v, some "unexpected EOF")) "unexpected EOF" none rfl

/-- C9: each of the four binding entry points rejects a pointer-typed
model at registration time with the fatal message
`binding: pointer can not be accepted as binding model`; no per-request
step is ever produced for such a model. -/
theorem pointerModelRejected (t : Ty) (opts : Options)
    (h : kindOf t = Kind.ptr) :
    JSON t opts = .error "binding: pointer can not be accepted as binding model" ∧
    YAML t opts = .error "binding: pointer can not be accepted as binding model" ∧
    Form' t opts = .error "binding: pointer can not be accepted as binding model" ∧
    MultipartForm t opts =
      .error "binding: pointer can not be accepted as binding model" := by
  unfold JSON YAML Form' MultipartForm ensureNotPointer
  simp [h]

theorem pointerModelRejected_witness :
    JSON (.ptr (.struct_ [])) ⟨0⟩ =
      .error "binding: pointer can not be accepted as binding model" ∧
    YAML (.ptr (.struct_ [])) ⟨0⟩ =
      .error "binding: pointer can not be accepted as binding model" ∧
    Form' (.ptr (.struct_ [])) ⟨0⟩ =
      .error "binding: pointer can not be accepted as binding model" ∧
    MultipartForm (.ptr (.struct_ [])) ⟨0⟩ =
      .error "binding: pointer can not be accepted as binding model" :=
  pointerModelRejected (.ptr (.struct_ [])) ⟨0⟩ rfl

end Binding
